import Mathlib

/-!
# Verification of the go-structflag struct-field reflection binder

Shallow embedding of the `structflag` Go package: the struct-field walker
(`flatStructFields`), the reflection binder (`structVar`), the merge
orchestrator (`LoadFileAndParseCommandLine`), the file codec dispatch
(`LoadFile`), the save operations (`SaveJSON` / `SaveXML`), and the command
dispatch table (`CommandList.Execute` and the arity-checked `AddWith*Args`
registration wrappers).

Conventions of the embedding:
* Go machine integers are modelled as `Int`/`Nat` with the explicit range
  checks that `strconv` performs (64-bit platform).
* `float64` values are never computed with by any claim, so they are carried
  opaquely as their source literal (`GoVal.vFloat`).
* The record is modelled as the flattened sequence of its storage slots
  (`List FlatField`), which is exactly what the Go code's
  `for _, field := range flatStructFields(...)` loop iterates over;
  `flatStructFields` itself is modelled separately on a tree of fields.
* The option-parsing backend (pflag) and the JSON/XML codecs are external
  collaborators; they are modelled at their interface: registering a typed
  option writes its default value into the bound storage cell (as
  `flag`/`pflag` `*Var` functions do), parsing writes supplied values into
  bound cells, and a codec produces a partial assignment of field names
  to values.
-/

namespace Structflag

/-- Semantic kind of a (pointed-to) field type, as classified by the
`switch fieldType.Kind()` dispatch in `structVar` (plus the dedicated
`time.Duration` check). `kOther` is any kind with no `case`, which the
switch silently skips. -/
inductive Kind where
  | kBool | kDuration | kFloat64 | kInt64 | kInt | kString | kUint64 | kUint
  | kOther
deriving DecidableEq

/-- A Go value of one of the kinds the binder handles. `vFloat` carries the
float64 opaquely as a literal (no claim computes with floats). `vOther` is
the value of a field of unrecognized kind. -/
inductive GoVal where
  | vBool (b : Bool)
  | vDuration (ns : Int)
  | vFloat (lit : String)
  | vInt64 (n : Int)
  | vInt (n : Int)
  | vString (s : String)
  | vUint64 (n : Nat)
  | vUint (n : Nat)
  | vOther
deriving DecidableEq

/-- The zero value of each semantic kind (Go's zero value). -/
def zeroOf : Kind → GoVal
  | .kBool => .vBool false
  | .kDuration => .vDuration 0
  | .kFloat64 => .vFloat "0"
  | .kInt64 => .vInt64 0
  | .kInt => .vInt 0
  | .kString => .vString ""
  | .kUint64 => .vUint64 0
  | .kUint => .vUint 0
  | .kOther => .vOther

/-- Models the typed read `fieldValue.Interface().(T)`: returns the stored
value when its constructor matches the static kind (the only case reachable
on a well-typed record, where the interface assertion succeeds). -/
def coerce : Kind → GoVal → GoVal
  | .kBool, .vBool b => .vBool b
  | .kDuration, .vDuration n => .vDuration n
  | .kFloat64, .vFloat l => .vFloat l
  | .kInt64, .vInt64 n => .vInt64 n
  | .kInt, .vInt n => .vInt n
  | .kString, .vString s => .vString s
  | .kUint64, .vUint64 n => .vUint64 n
  | .kUint, .vUint n => .vUint n
  | k, _ => zeroOf k

/-- Is `c` an ASCII decimal digit? -/
def isDigit (c : Char) : Bool := '0' ≤ c && c ≤ '9'

/-- Numeric value of a digit character in bases up to 16
(returns 16 for non-digits, which every base check rejects). -/
def digitVal (c : Char) : Nat :=
  if '0' ≤ c && c ≤ '9' then c.toNat - '0'.toNat
  else if 'a' ≤ c && c ≤ 'f' then c.toNat - 'a'.toNat + 10
  else if 'A' ≤ c && c ≤ 'F' then c.toNat - 'A'.toNat + 10
  else 16

/-- Digit-accumulation loop shared by the integer parsers. -/
def parseDigitsAux (base : Nat) : List Char → Nat → Option Nat
  | [], acc => some acc
  | c :: rest, acc =>
    if digitVal c < base then parseDigitsAux base rest (acc * base + digitVal c)
    else none

/-- Read a nonempty run of digits of the given base as a natural number.
Models the digit loop of `strconv.ParseUint` (underscore separators are not
modelled; no claim depends on them). -/
def parseDigits (base : Nat) : List Char → Option Nat
  | [] => none
  | cs => parseDigitsAux base cs 0

/-- Models `strconv.ParseBool`: accepts exactly the twelve literals Go does. -/
def parseGoBool (s : String) : Option Bool :=
  if s = "1" ∨ s = "t" ∨ s = "T" ∨ s = "TRUE" ∨ s = "true" ∨ s = "True" then
    some true
  else if s = "0" ∨ s = "f" ∨ s = "F" ∨ s = "FALSE" ∨ s = "false" ∨ s = "False" then
    some false
  else none

/-- Base detection of `strconv.ParseUint(s, 0, _)`: strips a `0x`/`0o`/`0b`
prefix (either case), treats a remaining leading `0` as octal, else decimal. -/
def splitBaseMark : List Char → Nat × List Char
  | '0' :: x :: rest =>
    if x = 'x' ∨ x = 'X' then (16, rest)
    else if x = 'o' ∨ x = 'O' then (8, rest)
    else if x = 'b' ∨ x = 'B' then (2, rest)
    else (8, x :: rest)
  | cs => (10, cs)

/-- Models `strconv.ParseUint(s, 0, 64)`: base auto-detection, no sign,
result must fit in 64 bits. -/
def parseGoUint (s : String) : Option Nat :=
  let (base, digits) := splitBaseMark s.data
  match parseDigits base digits with
  | some n => if n < 2 ^ 64 then some n else none
  | none => none

/-- Models `strconv.ParseInt(s, 0, 64)`: optional sign, then the unsigned
syntax; the magnitude must fit the signed 64-bit range. -/
def parseGoInt (s : String) : Option Int :=
  let (neg, rest) :=
    match s.data with
    | '-' :: cs => (true, cs)
    | '+' :: cs => (false, cs)
    | cs => (false, cs)
  let (base, digits) := splitBaseMark rest
  match parseDigits base digits with
  | some n =>
    if neg then
      if n ≤ 2 ^ 63 then some (-(n : Int)) else none
    else
      if n < 2 ^ 63 then some (n : Int) else none
  | none => none

/-- One duration unit suffix and its length in nanoseconds, as in
`time.ParseDuration`'s unit map. -/
def durationUnit : String → Option Nat
  | "ns" => some 1
  | "us" => some 1000
  | "µs" => some 1000
  | "ms" => some 1000000
  | "s" => some 1000000000
  | "m" => some 60000000000
  | "h" => some 3600000000000
  | _ => none

/-- Length bound for `List.dropWhile`, used for termination of the
duration parser. -/
theorem dropWhile_length_le (p : Char → Bool) (l : List Char) :
    (l.dropWhile p).length ≤ l.length := by
  induction l with
  | nil => simp [List.dropWhile]
  | cons x xs ih =>
    simp only [List.dropWhile]
    cases p x
    · simp
    · simp
      omega

/-- Helper for `parseGoDuration`: repeatedly read (digits, unit) groups.
Models the main loop of `time.ParseDuration`; fractional components
(`1.5s`) are not modelled — no claim depends on them. -/
def parseDurationGroups : List Char → Nat → Option Nat
  | [], acc => some acc
  | c :: cs, acc =>
    if isDigit c then
      let digits := c :: cs.takeWhile isDigit
      let afterNum := cs.dropWhile isDigit
      let unitChars := afterNum.takeWhile (fun x => !(isDigit x))
      let afterUnit := afterNum.dropWhile (fun x => !(isDigit x))
      match parseDigits 10 digits, durationUnit (String.mk unitChars) with
      | some n, some u => parseDurationGroups afterUnit (acc + n * u)
      | _, _ => none
    else none
termination_by cs _ => cs.length
decreasing_by
  simp only [List.length_cons]
  exact Nat.lt_succ_of_le (le_trans (dropWhile_length_le _ _) (dropWhile_length_le _ _))

/-- Models `time.ParseDuration`: optional sign, then one or more
number-unit groups, or the literal `"0"`. -/
def parseGoDuration (s : String) : Option Int :=
  let (neg, rest) :=
    match s.data with
    | '-' :: cs => (true, cs)
    | '+' :: cs => (false, cs)
    | cs => (false, cs)
  if rest = ['0'] then some 0
  else if rest = [] then none
  else
    match parseDurationGroups rest 0 with
    | some n => some (if neg then -(n : Int) else (n : Int))
    | none => none

/-- Syntax check for a float literal: optional sign, digits, optional
fraction, optional exponent. Models the decimal syntax accepted by
`strconv.ParseFloat`; the accepted literal is kept opaquely as the value
(no claim computes with floats). -/
def floatLitOk (cs : List Char) : Bool :=
  let body :=
    match cs with
    | '-' :: rest => rest
    | '+' :: rest => rest
    | rest => rest
  let intPart := body.takeWhile isDigit
  let afterInt := body.dropWhile isDigit
  let fracPart :=
    match afterInt with
    | '.' :: rest => rest.takeWhile isDigit
    | _ => []
  let afterFrac :=
    match afterInt with
    | '.' :: rest => rest.dropWhile isDigit
    | rest => rest
  let expOk :=
    match afterFrac with
    | [] => true
    | e :: rest =>
      (e == 'e' || e == 'E') &&
        (let expBody :=
          match rest with
          | '-' :: r => r
          | '+' :: r => r
          | r => r
        !expBody.isEmpty && expBody.all isDigit)
  (!intPart.isEmpty || !fracPart.isEmpty) && expOk

/-- Models `strconv.ParseFloat(s, 64)` as far as the claims need: a
syntactically valid decimal literal is accepted and carried opaquely as the
value (hex floats, `inf`/`NaN` and underscores are not modelled; no claim
computes with float values). -/
def parseGoFloat (s : String) : Option String :=
  if floatLitOk s.data then some s else none

/-- The type-specific parse of a default-tag literal for each semantic kind,
as performed inside the corresponding branch of `structVar`
(`strconv.ParseBool` / `ParseFloat` / `ParseInt` / `ParseUint`,
`time.ParseDuration`; the string branch uses the literal unparsed).
`kOther` has no branch in the `switch`, hence no parse. -/
def goParse : Kind → String → Option GoVal
  | .kBool, s => (parseGoBool s).map .vBool
  | .kDuration, s => (parseGoDuration s).map .vDuration
  | .kFloat64, s => (parseGoFloat s).map .vFloat
  | .kInt64, s => (parseGoInt s).map .vInt64
  | .kInt, s => (parseGoInt s).map .vInt
  | .kString, s => some (.vString s)
  | .kUint64, s => (parseGoUint s).map .vUint64
  | .kUint, s => (parseGoUint s).map .vUint
  | .kOther, _ => none

/-- One flattened struct field: the descriptor produced by
`flatStructFields` (static metadata plus the addressable storage slot).
Tag access follows the source: `flagTag`/`usageTag` model `Tag.Get`
(empty string when absent), `shortTag`/`defaultTag` model `Tag.Lookup`.
`custom` models `field.Type.Implements(pflagValueType)`; `isPtr`/`ptrNil`
model a pointer-typed field and its nil-ness; for a pointer field `kind`
and `value` describe the pointee. -/
structure FlatField where
  name : String
  flagTag : String
  shortTag : Option String
  usageTag : String
  defaultTag : Option String
  custom : Bool
  isPtr : Bool
  ptrNil : Bool
  kind : Kind
  value : GoVal
deriving DecidableEq

/-- One option registered with the backend `Flags`: resolved name, optional
shorthand, usage, the default value passed to the typed `*Var` call
(`none` for a `Var`-registered custom value, which carries no default),
and the index of the bound storage slot in the flattened record. -/
structure Registered where
  rname : String
  shorthand : Option String
  usage : String
  defVal : Option GoVal
  idx : Nat
deriving DecidableEq

/-- One loop iteration of `structVar` over a flattened field (source
`structflag.go`, lines 147–323): resolves the name (skip on the `"-"`
sentinel), handles a `pflag.Value` field, checks/dereferences a pointer
field (panicking when nil and updating the shared `fieldValuesAsDefault`
variable), computes the effective default for the field's kind, and
registers the option.  Registering a typed option writes its default into
the bound storage (`pflag`'s `*Var` behaviour), modelled by updating
`value`.  Returns the registration (if any), the updated field, and the
updated `fieldValuesAsDefault` flag — the Go code mutates the function
parameter, so the flag persists to later iterations.  A `panic` is
modelled as `Except.error` carrying the panic message. -/
def bindOne (flagsp : Bool) (fieldValuesAsDefault : Bool) (i : Nat) (f : FlatField) :
    Except String (Option Registered × FlatField × Bool) :=
  if f.flagTag = "-" then .ok (none, f, fieldValuesAsDefault)
  else
    let name := if f.flagTag = "" then f.name else f.flagTag
    let shorthand := if flagsp then f.shortTag else none
    let usage := f.usageTag
    if f.custom then
      .ok (some ⟨name, shorthand, usage, none, i⟩, f, fieldValuesAsDefault)
    else
      let hasDefault := f.defaultTag.isSome
      if f.isPtr ∧ f.ptrNil then
        .error ("pointer struct field \x27" ++ f.name ++ "\x27 must not be nil")
      else
        let mode := if f.isPtr then !hasDefault else fieldValuesAsDefault
        match f.kind with
        | .kOther => .ok (none, f, mode)
        | k =>
          let valE : Except String GoVal :=
            if mode then .ok (coerce k f.value)
            else
              match f.defaultTag with
              | some s =>
                match goParse k s with
                | some v => .ok v
                | none => .error ("invalid default value " ++ s)
              | none => .ok (zeroOf k)
          match valE with
          | .error e => .error e
          | .ok v => .ok (some ⟨name, shorthand, usage, some v, i⟩, {f with value := v}, mode)

/-- The loop of `structVar` over the flattened fields, threading the index
of the current storage slot and the (mutated) `fieldValuesAsDefault`
flag. -/
def structVarAux (flagsp : Bool) :
    Nat → List FlatField → Bool → Except String (List Registered × List FlatField)
  | _, [], _ => .ok ([], [])
  | i, f :: rest, mode =>
    match bindOne flagsp mode i f with
    | .error e => .error e
    | .ok (reg, f1, mode1) =>
      match structVarAux flagsp (i + 1) rest mode1 with
      | .error e => .error e
      | .ok (regs, rest1) =>
        .ok ((match reg with | some r => r :: regs | none => regs), f1 :: rest1)

/-- `structVar(structPtr, flags, fieldValuesAsDefault)` over the flattened
record: registers the non-skipped fields as options and applies the
registration-time default writes.  `flagsp` records whether the backend
supports shorthand flags (`flags.(FlagsP)` succeeded); with the default
`NewFlags` it always does. -/
def structVar (flagsp : Bool) (fields : List FlatField) (fieldValuesAsDefault : Bool) :
    Except String (List Registered × List FlatField) :=
  structVarAux flagsp 0 fields fieldValuesAsDefault

/-- A struct field as seen by the walker: either a non-anonymous field
carrying its descriptor payload, or an anonymous (embedded) sub-struct
whose (pointer-dereferenced) value is the given field list. -/
inductive SField where
  | plain (f : FlatField) : SField
  | embedded (ename : String) (sub : List SField) : SField

/-- `flatStructFields` (source `structflag.go`, lines 418–435): walks the
struct's fields in declaration order; an anonymous field's sub-fields are
recursively flattened and spliced in at its position, a non-anonymous
field is emitted as-is. -/
def flatStructFields : List SField → List FlatField
  | [] => []
  | .plain f :: rest => f :: flatStructFields rest
  | .embedded _ sub :: rest => flatStructFields sub ++ flatStructFields rest

/-- The walker instrumented with the declaration path (sequence of field
indices from the root) of each produced descriptor, to express
depth-first order and that no field is visited twice. -/
def flatPaths : List Nat → Nat → List SField → List (List Nat × FlatField)
  | _, _, [] => []
  | pfx, i, .plain f :: rest => (pfx ++ [i], f) :: flatPaths pfx (i + 1) rest
  | pfx, i, .embedded _ sub :: rest =>
    flatPaths (pfx ++ [i]) 0 sub ++ flatPaths pfx (i + 1) rest

/-- Number of non-anonymous top-level fields (each contributes exactly one
descriptor directly). -/
def topLevelPlainCount : List SField → Nat
  | [] => 0
  | .plain _ :: rest => topLevelPlainCount rest + 1
  | .embedded _ _ :: rest => topLevelPlainCount rest

/-- Total number of descriptors contributed by the anonymous (embedded)
top-level fields, i.e. the recursively flattened field count of each
embedded sub-record. -/
def nestedFieldCount : List SField → Nat
  | [] => 0
  | .plain _ :: rest => nestedFieldCount rest
  | .embedded _ sub :: rest => (flatStructFields sub).length + nestedFieldCount rest

/-- ASCII lower-casing of one character (models the behaviour of Go's
`strings.ToLower` on the ASCII range, the only range exercised by file
extensions and the claims' command names). -/
def charLower (c : Char) : Char :=
  if 'A' ≤ c ∧ c ≤ 'Z' then Char.ofNat (c.toNat + 32) else c

/-- ASCII `strings.ToLower`. -/
def asciiLower (s : String) : String := String.mk (s.data.map charLower)

/-- Split a character list on `'/'` into path elements. -/
def splitSlashAux : List Char → List Char → List String
  | [], acc => [String.mk acc.reverse]
  | '/' :: rest, acc => String.mk acc.reverse :: splitSlashAux rest []
  | c :: rest, acc => splitSlashAux rest (c :: acc)

/-- Path elements of a slash-separated path. -/
def splitSlash (s : String) : List String := splitSlashAux s.data []

/-- Join path elements with `'/'`. -/
def joinSlash : List String → String
  | [] => ""
  | [e] => e
  | e :: rest => e ++ "/" ++ joinSlash rest

/-- `filepath.Clean` element processing: drop empty and `"."` elements,
resolve `".."` against the stack of preceding elements (an unmatched
`".."` is kept for a relative path and dropped for a rooted one).
The accumulator holds the processed elements in reverse. -/
def cleanElems (rooted : Bool) : List String → List String → List String
  | acc, [] => acc.reverse
  | acc, e :: rest =>
    if e = "" ∨ e = "." then cleanElems rooted acc rest
    else if e = ".." then
      match acc with
      | [] => if rooted then cleanElems rooted [] rest else cleanElems rooted [".."] rest
      | a :: as' =>
        if a = ".." then cleanElems rooted (e :: acc) rest
        else cleanElems rooted as' rest
    else cleanElems rooted (e :: acc) rest

/-- Models `filepath.Clean` for slash-separated paths: lexically simplifies
the path; the cleaned path of an empty input is `"."`. -/
def pathClean (path : String) : String :=
  if path = "" then "."
  else
    let rooted := path.data.head? = some '/'
    let elems := cleanElems rooted [] (splitSlash path)
    let joined := joinSlash elems
    if rooted then "/" ++ joined
    else if joined = "" then "." else joined

/-- Models `filepath.Ext`: scan backwards from the end of the path; the
extension starts at the last dot of the final (slash-separated) element,
and is empty when that element has no dot. `acc` accumulates the
characters already passed, in original order. -/
def extRev : List Char → List Char → String
  | [], _ => ""
  | c :: rest, acc =>
    if c = '/' then ""
    else if c = '.' then String.mk ('.' :: acc)
    else extRev rest (c :: acc)

/-- `filepath.Ext`. -/
def filepathExt (path : String) : String := extRev path.data.reverse []

/-- Apply a codec outcome to the record: a successful unmarshal assigns
the decoded values to the record fields they name (a decode into a nil
pointer field allocates, so the field becomes non-nil); a failed load
leaves the record as it was and surfaces the error. Models
`json.Unmarshal`/`xml.Unmarshal` at the abstraction boundary: the codec
yields a partial assignment of field names to values. -/
def applyCodec (res : Except String (List (String × GoVal))) (rec : List FlatField) :
    Option String × List FlatField :=
  match res with
  | .error e => (some e, rec)
  | .ok kvs =>
    (none, rec.map (fun f =>
      match kvs.find? (fun kv => kv.1 == f.name) with
      | some kv => { f with value := kv.2, ptrNil := false }
      | none => f))

/-- `LoadFile` (source `fileformats.go`, `src/unnamed/part_001`, lines
14–25): cleans the filename, lower-cases its extension, dispatches to the
JSON or XML codec, and fails on any other extension with an error carrying
the extension. `jsonRead fn` / `xmlRead fn` model `LoadJSON` / `LoadXML`
(file read plus unmarshal) as external collaborators keyed by the cleaned
filename. -/
def LoadFile (jsonRead xmlRead : String → Except String (List (String × GoVal)))
    (filename : String) (rec : List FlatField) : Option String × List FlatField :=
  let fn := pathClean filename
  let ext := asciiLower (filepathExt fn)
  if ext = ".json" then applyCodec (jsonRead fn) rec
  else if ext = ".xml" then applyCodec (xmlRead fn) rec
  else (some ("file extension not supported: " ++ ext), rec)

/-- The standard XML declaration header `xml.Header`. -/
def xmlHeader : String := "<?xml version=\"1.0\" encoding=\"UTF-8\"?>\n"

/-- A file write as issued through `ioutil.WriteFile`: target name, the
permission bits passed to it, whether the write truncates/creates (always
true for `WriteFile`, which opens with `O_WRONLY|O_CREATE|O_TRUNC`), and
the full content written. -/
structure WriteOp where
  filename : String
  perm : Nat
  truncates : Bool
  content : String
deriving DecidableEq

/-- `SaveXML` (current version, `src/unnamed/part_001`, lines 38–46):
cleans the filename, marshals (outcome supplied by the external
`xml.MarshalIndent`), prepends `xml.Header`, and writes with permission
`0600`. -/
def SaveXML (marshal : Except String String) (filename : String) : Except String WriteOp :=
  match marshal with
  | .error e => .error e
  | .ok data => .ok ⟨pathClean filename, 0o600, true, xmlHeader ++ data⟩

/-- `SaveJSON` (current version, `src/unnamed/part_001`, lines 56–64):
writes the marshalled JSON with permission `0600`. -/
def SaveJSON (marshal : Except String String) (filename : String) : Except String WriteOp :=
  match marshal with
  | .error e => .error e
  | .ok data => .ok ⟨pathClean filename, 0o600, true, data⟩

/-- `SaveXML` as in the older variants (`src/unnamed/part_000` lines 36–43
and the second half of `src/structflag.go`, lines 770–777): no filename
cleaning, permission `0660`. -/
def SaveXMLLegacy (marshal : Except String String) (filename : String) : Except String WriteOp :=
  match marshal with
  | .error e => .error e
  | .ok data => .ok ⟨filename, 0o660, true, xmlHeader ++ data⟩

/-- `SaveJSON` as in the older variants (permission `0660`). -/
def SaveJSONLegacy (marshal : Except String String) (filename : String) : Except String WriteOp :=
  match marshal with
  | .error e => .error e
  | .ok data => .ok ⟨filename, 0o660, true, data⟩

/-- A command-line token, as seen by the abstract option-parsing backend:
a flag token together with the typed value it encodes for a named option,
a malformed token (which makes the backend's `Parse` fail), or a residual
positional argument. -/
inductive Arg where
  | flagArg (aname : String) (v : GoVal)
  | badArg (tok : String)
  | positional (s : String)

/-- Write a value into the storage slot at index `i` of the flattened
record (what the backend does when a flag's value is supplied). -/
def setFieldVal (rec : List FlatField) (i : Nat) (v : GoVal) : List FlatField :=
  rec.mapIdx (fun j f => if j = i then { f with value := v } else f)

/-- The abstract backend's `Parse` loop: a supplied flag whose name is
registered writes its value into the bound storage; an unknown flag or a
malformed token is a parse error; positional tokens accumulate as residual
arguments (`Args()`), returned on success. -/
def flagsParseAux (regs : List Registered) :
    List Arg → List FlatField → List String → Except String (List String × List FlatField)
  | [], rec, acc => .ok (acc.reverse, rec)
  | .flagArg n v :: rest, rec, acc =>
    match regs.find? (fun r => r.rname == n) with
    | some r => flagsParseAux regs rest (setFieldVal rec r.idx v) acc
    | none => .error ("unknown flag: " ++ n)
  | .badArg tok :: _, _, _ => .error ("invalid argument: " ++ tok)
  | .positional s :: rest, rec, acc => flagsParseAux regs rest rec (s :: acc)

/-- The backend's `Parse` followed by `Args()`. -/
def flagsParse (regs : List Registered) (args : List Arg) (rec : List FlatField) :
    Except String (List String × List FlatField) :=
  flagsParseAux regs args rec []

/-- What `LoadFileAndParseCommandLine` returns, together with the
process-lifetime state it creates: the primary (long-lived) option
registry seeded in phase 1, the returned residual arguments (`none`
models a `nil` slice), the returned error, and the final record. -/
structure MergeOut where
  primary : List Registered
  retArgs : Option (List String)
  retErr : Option String
  final : List FlatField
deriving DecidableEq

/-- `LoadFileAndParseCommandLine` (source `structflag.go`, lines 372–390):
1. `StructVar(structPtr)` — bind the record into the primary registry with
   tag defaults (phase 1);
2. `LoadFile(filename, structPtr)` — capture the load error, keep going;
3. bind the record into a fresh temporary registry with
   `fieldValuesAsDefault = true` (phase 2);
4. parse the command-line arguments against the temporary registry —
   a parse error is returned as `(nil, err)`, discarding the load error;
5. otherwise return the residual arguments and the captured load error.
A `panic` inside either binding is the `Except.error` case. -/
def LoadFileAndParseCommandLine
    (jsonRead xmlRead : String → Except String (List (String × GoVal)))
    (filename : String) (cmdArgs : List Arg) (rec : List FlatField) :
    Except String MergeOut :=
  match structVar true rec false with
  | .error e => .error e
  | .ok (regs1, rec1) =>
    let loaded := LoadFile jsonRead xmlRead filename rec1
    match structVar true loaded.2 true with
    | .error e => .error e
    | .ok (regs2, rec3) =>
      match flagsParse regs2 cmdArgs rec3 with
      | .error e => .ok ⟨regs1, none, some e, rec3⟩
      | .ok (residual, rec4) => .ok ⟨regs1, some residual, loaded.1, rec4⟩

/-- The `ErrNotEnoughArguments` sentinel of the current command module
(`src/unnamed/part_004`), message as in the source (sic). -/
def errNotEnoughArguments : String := "not enough argumetns"

/-- One entry of the command table (`commandDetails`): name, argument
description, description lines, and the handler. A handler returns
`none` for a `nil` error and `some e` for an error value. -/
structure CommandDetails where
  command : String
  argDesc : String
  commandDesc : List String
  action : List String → Option String

/-- `CommandList.AddWithArgs`: append an entry to the table. -/
def addWithArgs (c : List CommandDetails) (action : List String → Option String)
    (command argDesc : String) (commandDesc : List String) : List CommandDetails :=
  c ++ [⟨command, argDesc, commandDesc, action⟩]

/-- The wrapper built by `AddWithArg`: with fewer than 1 argument return
`ErrNotEnoughArguments`, else call the handler on `args[0]`. -/
def arg1Action (action : String → Option String) : List String → Option String
  | a :: _ => action a
  | _ => some errNotEnoughArguments

/-- The wrapper built by `AddWith2Args`. -/
def arg2Action (action : String → String → Option String) : List String → Option String
  | a :: b :: _ => action a b
  | _ => some errNotEnoughArguments

/-- The wrapper built by `AddWith3Args`. -/
def arg3Action (action : String → String → String → Option String) :
    List String → Option String
  | a :: b :: c :: _ => action a b c
  | _ => some errNotEnoughArguments

/-- The wrapper built by `AddWith4Args`. -/
def arg4Action (action : String → String → String → String → Option String) :
    List String → Option String
  | a :: b :: c :: d :: _ => action a b c d
  | _ => some errNotEnoughArguments

/-- The wrapper built by `AddWith5Args`. -/
def arg5Action (action : String → String → String → String → String → Option String) :
    List String → Option String
  | a :: b :: c :: d :: e :: _ => action a b c d e
  | _ => some errNotEnoughArguments

/-- `CommandList.AddWithArg` (similarly `AddWith2Args` … `AddWith5Args`
via the other wrappers). -/
def addWithArg (c : List CommandDetails) (action : String → Option String)
    (command argDesc : String) (commandDesc : List String) : List CommandDetails :=
  addWithArgs c (arg1Action action) command argDesc commandDesc

/-- `CommandList.Add`: a command whose handler takes no extra arguments. -/
def addCommand (c : List CommandDetails) (action : Option String)
    (command : String) (commandDesc : List String) : List CommandDetails :=
  addWithArgs c (fun _ => action) command "" commandDesc

/-- `CommandList.AddDefault`: registers the empty-name command executed
when no other command is given. -/
def addDefault (c : List CommandDetails) (action : Option String)
    (commandDesc : List String) : List CommandDetails :=
  addCommand c action "" commandDesc

/-- The search loop of `CommandList.Execute`: first entry whose
lower-cased name equals the lower-cased first token wins and its handler
runs on the remaining tokens; otherwise `("", nil)`. -/
def executeFind : List CommandDetails → String → List String → String × Option String
  | [], _, _ => ("", none)
  | d :: ds, commLower, rest =>
    if asciiLower d.command == commLower then (d.command, d.action rest)
    else executeFind ds commLower rest

/-- `CommandList.Execute` (source `src/unnamed/part_004`, lines 132–144):
the first token (lower-cased; `""` when absent) selects the command, the
remaining tokens are passed to its handler; the executed command's name
and its error are returned, and `("", nil)` when nothing matches. -/
def executeGo (c : List CommandDetails) (args : List String) : String × Option String :=
  match args with
  | [] => executeFind c "" []
  | a :: rest => executeFind c (asciiLower a) rest

/-! ## Concrete inputs used by the evaluation theorems -/

/-- A non-nil pointer-to-int field named `Port` carrying default tag `"5"`,
pointee currently 0. -/
def portPtrField : FlatField :=
  { name := "Port", flagTag := "", shortTag := none, usageTag := "",
    defaultTag := some "5", custom := false, isPtr := true, ptrNil := false,
    kind := .kInt, value := .vInt 0 }

/-- A JSON codec outcome supplying `Port = 9` (the configuration file sets
the field). -/
def jsonPort9 : String → Except String (List (String × GoVal)) :=
  fun _ => .ok [("Port", .vInt 9)]

/-- An XML codec that is never reached. -/
def xmlUnused : String → Except String (List (String × GoVal)) :=
  fun _ => .error "unused"

/-- `portPtrField` with the pointee currently 9 (e.g. after a file load). -/
def portPtrField9 : FlatField := { portPtrField with value := .vInt 9 }

/-- A non-nil pointer-to-int field without a default tag. -/
def intPtrNoDefault : FlatField :=
  { name := "P", flagTag := "", shortTag := none, usageTag := "",
    defaultTag := none, custom := false, isPtr := true, ptrNil := false,
    kind := .kInt, value := .vInt 7 }

/-- A plain bool field whose default tag `"xyz"` fails `strconv.ParseBool`. -/
def boolBadDefault : FlatField :=
  { name := "B", flagTag := "", shortTag := none, usageTag := "",
    defaultTag := some "xyz", custom := false, isPtr := false, ptrNil := false,
    kind := .kBool, value := .vBool true }

/-! ## Claims C1, C2, C6: the pointer-field default handling of `structVar` -/

/-- **C1** (code bug, evaluation at the failing input): for the record with
the single non-nil pointer field `Port` (`default:"5"`), a configuration
file supplying `Port = 9` and an empty command line,
`LoadFileAndParseCommandLine` returns normally with residual arguments `[]`
and no error, but the post-merge field equals the tag default 5, not the
file-supplied 9: phase 2 re-registers the tag-parsed default for a pointer
field carrying a default tag (`fieldValuesAsDefault = !hasDefault` in
`structVar`), and registration writes that default into the field,
clobbering the file-loaded value.  The claimed precedence (file value wins
when the command line is silent) — which is also what the function's own
doc comment promises — fails here. -/
theorem claim_C1_pointer_default_clobbers_file_value :
    (LoadFileAndParseCommandLine jsonPort9 xmlUnused "config.json" []
          [portPtrField]).toOption.map
        (fun o => (o.final.map FlatField.value, o.retArgs, o.retErr)) =
      some ([.vInt 5], some [], none) ∧ GoVal.vInt 5 ≠ GoVal.vInt 9 :=
  ⟨by decide, by decide⟩

/-- **C2** (code bug, evaluation at the failing input): binding in
"use current field value as default" mode (`fieldValuesAsDefault = true`),
the pointer field `Port` whose pointee currently holds 9 but which carries
default tag `"5"` is registered with default 5 — the tag-parsed default,
not the field's present runtime value — because `structVar` resets the
mode to `!hasDefault` for pointer fields. -/
theorem claim_C2_pointer_default_ignores_current_value :
    (structVar true [portPtrField9] true).toOption.map
        (fun p => p.1.map Registered.defVal) = some [some (.vInt 5)] ∧
      portPtrField9.value = .vInt 9 ∧ GoVal.vInt 5 ≠ GoVal.vInt 9 :=
  ⟨by decide, by decide, by decide⟩

/-- **C6** (code bug, evaluation at the failing input): binding the record
`[intPtrNoDefault, boolBadDefault]` in tag-default mode returns normally —
no panic — even though the bound field `B` carries the default literal
`"xyz"`, which fails `strconv.ParseBool`.  The non-nil pointer field
without a default tag that precedes it flips the shared
`fieldValuesAsDefault` variable to `true`, so the malformed literal is
never parsed, contradicting the claim that a failing default literal
always raises the fatal error at bind time. -/
theorem claim_C6_malformed_default_not_fatal :
    (structVar true [intPtrNoDefault, boolBadDefault] false).isOk = true ∧
      goParse boolBadDefault.kind "xyz" = none :=
  ⟨by decide, by decide⟩

/-! ## Claim C8: save operations -/

/-- **C8** (counterexample): the `SaveXML` of `src/unnamed/part_000` (and
of the second half of `src/structflag.go`) passes permission `0660` to
`WriteFile`, whose group-write bit (`0020`) is set — contradicting the
claim that every save operation writes with no group or world write bit. -/
theorem claim_C8_counterexample :
    SaveXMLLegacy (.ok "<A/>") "a.xml" =
        .ok ⟨"a.xml", 0o660, true, xmlHeader ++ "<A/>"⟩ ∧
      0o660 &&& 0o020 ≠ 0 :=
  ⟨rfl, by decide⟩

/-- **C8** (amended): every save operation issues a single full-overwrite
write (`WriteFile` truncates), `SaveXML` prepends the standard XML
declaration header, and no variant grants world write; the current
(`part_001`) variants restrict the permission to the owner (`0600`, no
group or world write), while the older variants (`part_000`,
`structflag.go`) pass `0660`, which additionally grants group read/write. -/
theorem claim_C8_amended (data fn : String) :
    SaveXML (.ok data) fn = .ok ⟨pathClean fn, 0o600, true, xmlHeader ++ data⟩ ∧
      SaveJSON (.ok data) fn = .ok ⟨pathClean fn, 0o600, true, data⟩ ∧
      SaveXMLLegacy (.ok data) fn = .ok ⟨fn, 0o660, true, xmlHeader ++ data⟩ ∧
      SaveJSONLegacy (.ok data) fn = .ok ⟨fn, 0o660, true, data⟩ ∧
      0o600 &&& 0o022 = 0 ∧ 0o660 &&& 0o002 = 0 :=
  ⟨rfl, rfl, rfl, rfl, by decide, by decide⟩

/-! ## Claim C4: the field walker -/

/-- The descriptor payloads of the path-instrumented walker are exactly the
descriptors the walker produces. -/
theorem flatPaths_map_snd : ∀ (pfx : List Nat) (i : Nat) (fs : List SField),
    (flatPaths pfx i fs).map Prod.snd = flatStructFields fs
  | _, _, [] => by simp [flatPaths, flatStructFields]
  | pfx, i, .plain f :: rest => by
    simp [flatPaths, flatStructFields, flatPaths_map_snd pfx (i + 1) rest]
  | pfx, i, .embedded n sub :: rest => by
    simp [flatPaths, flatStructFields, flatPaths_map_snd (pfx ++ [i]) 0 sub,
      flatPaths_map_snd pfx (i + 1) rest]

/-- Every path produced under prefix `pfx` starting at index `i` extends
`pfx` with a component `≥ i`. -/
theorem flatPaths_shape : ∀ (pfx : List Nat) (i : Nat) (fs : List SField)
    (q : List Nat), q ∈ (flatPaths pfx i fs).map Prod.fst →
    ∃ j t, q = pfx ++ j :: t ∧ i ≤ j
  | _, _, [], q, hq => by simp [flatPaths] at hq
  | pfx, i, .plain f :: rest, q, hq => by
    simp only [flatPaths, List.map_cons, List.mem_cons] at hq
    rcases hq with h | h
    · exact ⟨i, [], by simpa using h, le_refl i⟩
    · obtain ⟨j, t, rfl, hj⟩ := flatPaths_shape pfx (i + 1) rest q h
      exact ⟨j, t, rfl, by omega⟩
  | pfx, i, .embedded n sub :: rest, q, hq => by
    simp only [flatPaths, List.map_append, List.mem_append] at hq
    rcases hq with h | h
    · obtain ⟨j, t, rfl, hj⟩ := flatPaths_shape (pfx ++ [i]) 0 sub q h
      exact ⟨i, j :: t, by simp, le_refl i⟩
    · obtain ⟨j, t, rfl, hj⟩ := flatPaths_shape pfx (i + 1) rest q h
      exact ⟨j, t, rfl, by omega⟩

/-- Lexicographic comparison after a common prefix. -/
theorem lexAppendLt : ∀ (pfx : List Nat) (a b : Nat) (s t : List Nat), a < b →
    List.Lex (· < ·) (pfx ++ a :: s) (pfx ++ b :: t)
  | [], _, _, _, _, h => List.Lex.rel h
  | _ :: pfx, a, b, s, t, h => List.Lex.cons (lexAppendLt pfx a b s t h)

/-- The walker emits descriptors in strictly increasing depth-first
(lexicographic) order of declaration paths. -/
theorem flatPaths_pairwise : ∀ (pfx : List Nat) (i : Nat) (fs : List SField),
    ((flatPaths pfx i fs).map Prod.fst).Pairwise (List.Lex (· < ·))
  | _, _, [] => by simp [flatPaths]
  | pfx, i, .plain f :: rest => by
    simp only [flatPaths, List.map_cons]
    refine List.Pairwise.cons ?_ (flatPaths_pairwise pfx (i + 1) rest)
    intro q hq
    obtain ⟨j, t, rfl, hj⟩ := flatPaths_shape pfx (i + 1) rest q hq
    exact lexAppendLt pfx i j [] t (by omega)
  | pfx, i, .embedded n sub :: rest => by
    simp only [flatPaths, List.map_append]
    rw [List.pairwise_append]
    refine ⟨flatPaths_pairwise (pfx ++ [i]) 0 sub,
      flatPaths_pairwise pfx (i + 1) rest, ?_⟩
    intro a ha b hb
    obtain ⟨ja, ta, rfl, _⟩ := flatPaths_shape (pfx ++ [i]) 0 sub a ha
    obtain ⟨jb, tb, rfl, hjb⟩ := flatPaths_shape pfx (i + 1) rest b hb
    have hassoc : pfx ++ [i] ++ ja :: ta = pfx ++ i :: ja :: ta := by simp
    rw [hassoc]
    exact lexAppendLt pfx i jb (ja :: ta) tb (by omega)

/-- Strict lexicographic order on paths is irreflexive. -/
theorem lex_lt_irrefl : ∀ (l : List Nat), ¬ List.Lex (· < ·) l l
  | [], h => by cases h
  | a :: l, h => by
    cases h with
    | rel hr => exact absurd hr (lt_irrefl a)
    | cons h2 => exact lex_lt_irrefl l h2

/-- Descriptor count: one per non-anonymous top-level field plus the
recursively flattened count of each embedded sub-record. -/
theorem flatStructFields_length : ∀ (fs : List SField),
    (flatStructFields fs).length = topLevelPlainCount fs + nestedFieldCount fs
  | [] => by simp [flatStructFields, topLevelPlainCount, nestedFieldCount]
  | .plain f :: rest => by
    simp only [flatStructFields, topLevelPlainCount, nestedFieldCount,
      List.length_cons, flatStructFields_length rest]
    omega
  | .embedded n sub :: rest => by
    simp only [flatStructFields, topLevelPlainCount, nestedFieldCount,
      List.length_append, flatStructFields_length rest]
    omega

/-- **C4** (confirmed): for every structured record, the walker produces
exactly N + M descriptors, where N is the number of non-anonymous
top-level fields and M the total (recursively flattened) number of fields
inside the embedded/anonymous ones; the descriptors are emitted in
strictly increasing depth-first declaration-path order (an embedded
sub-record's fields are spliced in at the embedded field's position), so
no field storage slot appears twice. -/
theorem claim_C4_walker (fs : List SField) :
    (flatStructFields fs).length = topLevelPlainCount fs + nestedFieldCount fs ∧
      (flatPaths [] 0 fs).map Prod.snd = flatStructFields fs ∧
      ((flatPaths [] 0 fs).map Prod.fst).Pairwise (List.Lex (· < ·)) ∧
      ((flatPaths [] 0 fs).map Prod.fst).Nodup :=
  ⟨flatStructFields_length fs, flatPaths_map_snd [] 0 fs,
    flatPaths_pairwise [] 0 fs,
    by
      have hp := flatPaths_pairwise [] 0 fs
      refine hp.imp ?_
      intro a b hlex heq
      exact lex_lt_irrefl b (heq ▸ hlex)⟩

/-! ## Claim C5: the skip sentinel -/

/-- Any registration `bindOne` emits is bound to the slot it was called
on. -/
theorem bindOne_idx (flagsp mode : Bool) (i : Nat) (f : FlatField)
    (r : Registered) (f1 : FlatField) (m1 : Bool)
    (h : bindOne flagsp mode i f = .ok (some r, f1, m1)) : r.idx = i := by
  simp only [bindOne] at h
  repeat' split at h
  all_goals simp only [Except.ok.injEq, Prod.mk.injEq, Option.some.injEq,
    reduceCtorEq] at h
  all_goals obtain ⟨hr, -, -⟩ := h
  all_goals first
    | exact hr.elim
    | rw [← hr]

/-- A field whose name tag is the `"-"` sentinel is skipped before any
other processing: no registration, no mutation, no mode change. -/
theorem bindOne_skip (flagsp mode : Bool) (i : Nat) (f : FlatField)
    (hs : f.flagTag = "-") : bindOne flagsp mode i f = .ok (none, f, mode) := by
  simp [bindOne, hs]

/-- All options registered from slot `n` onward are bound at index `≥ n`. -/
theorem structVarAux_idx_ge (flagsp : Bool) : ∀ (n : Nat) (fs : List FlatField)
    (mode : Bool) (regs : List Registered) (fs1 : List FlatField),
    structVarAux flagsp n fs mode = .ok (regs, fs1) → ∀ r ∈ regs, n ≤ r.idx
  | n, [], mode, regs, fs1, h => by
    simp only [structVarAux, Except.ok.injEq, Prod.mk.injEq] at h
    obtain ⟨hl, -⟩ := h
    intro r hr
    rw [← hl] at hr
    cases hr
  | n, f :: rest, mode, regs, fs1, h => by
    cases hb : bindOne flagsp mode n f with
    | error e => simp [structVarAux, hb] at h
    | ok out =>
      obtain ⟨reg, f1, m1⟩ := out
      cases hrec : structVarAux flagsp (n + 1) rest m1 with
      | error e => simp [structVarAux, hb, hrec] at h
      | ok out2 =>
        obtain ⟨regs2, rest1⟩ := out2
        simp only [structVarAux, hb, hrec, Except.ok.injEq, Prod.mk.injEq] at h
        obtain ⟨hl, -⟩ := h
        intro r hr
        rw [← hl] at hr
        have htail : ∀ r ∈ regs2, n + 1 ≤ r.idx :=
          structVarAux_idx_ge flagsp (n + 1) rest m1 regs2 rest1 hrec
        cases reg with
        | none => exact le_trans (by omega) (htail r hr)
        | some r0 =>
          cases hr with
          | head => exact le_of_eq (bindOne_idx flagsp mode n f _ f1 m1 hb).symm
          | tail _ hmem => exact le_trans (by omega) (htail r hmem)

/-- A field with the `"-"` sentinel at position `i` of the suffix starting
at slot `n` gets no option bound at its slot, and its storage is left
untouched by the binding. -/
theorem structVarAux_skip (flagsp : Bool) : ∀ (n : Nat) (fs : List FlatField)
    (mode : Bool) (regs : List Registered) (fs1 : List FlatField),
    structVarAux flagsp n fs mode = .ok (regs, fs1) →
    ∀ (i : Nat) (f : FlatField), fs[i]? = some f → f.flagTag = "-" →
      (∀ r ∈ regs, r.idx ≠ n + i) ∧ fs1[i]? = some f
  | n, [], mode, regs, fs1, h => by
    intro i f hf _
    simp at hf
  | n, f0 :: rest, mode, regs, fs1, h => by
    intro i f hf hskip
    cases hb : bindOne flagsp mode n f0 with
    | error e => simp [structVarAux, hb] at h
    | ok out =>
      obtain ⟨reg, f1, m1⟩ := out
      cases hrec : structVarAux flagsp (n + 1) rest m1 with
      | error e => simp [structVarAux, hb, hrec] at h
      | ok out2 =>
        obtain ⟨regs2, rest1⟩ := out2
        simp only [structVarAux, hb, hrec, Except.ok.injEq, Prod.mk.injEq] at h
        obtain ⟨hl, hr⟩ := h
        have htail : ∀ r ∈ regs2, n + 1 ≤ r.idx :=
          structVarAux_idx_ge flagsp (n + 1) rest m1 regs2 rest1 hrec
        cases i with
        | zero =>
          simp only [List.getElem?_cons_zero, Option.some.injEq] at hf
          subst hf
          have hb0 := bindOne_skip flagsp mode n f0 hskip
          rw [hb0] at hb
          injection hb with hb2
          injection hb2 with ha hbc
          injection hbc with hbc1 hbc2
          subst ha
          constructor
          · intro r hrm
            rw [← hl] at hrm
            have := htail r hrm
            omega
          · rw [← hr, ← hbc1]
            simp
        | succ j =>
          simp only [List.getElem?_cons_succ] at hf
          have ih := structVarAux_skip flagsp (n + 1) rest m1 regs2 rest1 hrec
            j f hf hskip
          constructor
          · intro r hrm
            rw [← hl] at hrm
            cases reg with
            | none =>
              have := ih.1 r hrm
              omega
            | some r0 =>
              cases hrm with
              | head =>
                have := bindOne_idx flagsp mode n f0 _ f1 m1 hb
                omega
              | tail _ hmem =>
                have := ih.1 r hmem
                omega
          · rw [← hr]
            simp only [List.getElem?_cons_succ]
            exact ih.2

/-- A field with the skip sentinel, of a type and tags chosen adversarially
(nil pointer, malformed default literal, shorthand): none of it matters,
the field is skipped. -/
def skipField : FlatField :=
  { name := "S", flagTag := "-", shortTag := some "s", usageTag := "u",
    defaultTag := some "zzz", custom := false, isPtr := true, ptrNil := true,
    kind := .kBool, value := .vBool false }

/-- **C5** (confirmed): whenever binding a record succeeds, a field whose
name tag equals the skip sentinel `"-"` gets no option registered at its
storage slot — whatever its type and other tags — and its storage is left
untouched; the field still participates in flattening (the walker emits
it like any other non-anonymous field). -/
theorem claim_C5_skip_sentinel (flagsp mode : Bool) (fields : List FlatField)
    (regs : List Registered) (fields1 : List FlatField)
    (h : structVar flagsp fields mode = .ok (regs, fields1))
    (i : Nat) (f : FlatField) (hf : fields[i]? = some f)
    (hskip : f.flagTag = "-") :
    (∀ r ∈ regs, r.idx ≠ i) ∧ fields1[i]? = some f ∧
      ∀ fs : List SField,
        flatStructFields (.plain f :: fs) = f :: flatStructFields fs := by
  have hm := structVarAux_skip flagsp 0 fields mode regs fields1 h i f hf hskip
  refine ⟨?_, hm.2, fun fs => by simp [flatStructFields]⟩
  intro r hr
  have := hm.1 r hr
  omega

/-- Witness for C5: the adversarial `skipField` (nil pointer, malformed
default) binds successfully with an empty registry and untouched storage —
the skip sentinel wins over everything else. -/
theorem claim_C5_witness :
    (∀ r ∈ ([] : List Registered), r.idx ≠ 0) ∧
      [skipField][0]? = some skipField ∧
      ∀ fs : List SField,
        flatStructFields (.plain skipField :: fs) =
          skipField :: flatStructFields fs :=
  claim_C5_skip_sentinel true false [skipField] [] [skipField] (by rfl) 0
    skipField (by rfl) (by rfl)

/-! ## Claim C3: the merge orchestrator's phases and return value -/

/-- **C3** (confirmed): whenever the two bindings succeed (no panic),
`LoadFileAndParseCommandLine` returns the phase-1 binding of the
*original, pre-load* record as the primary registry — for arbitrary
codecs, including failing ones, i.e. the phase-1 binding happens before
and independently of the file load — and its return value is:
on a command-line parse failure, `nil` residual arguments paired with the
parse error (the captured load error is discarded); otherwise the residual
arguments paired with the load error (or `nil`). -/
theorem claim_C3_phase_order_and_returns
    (jr xr : String → Except String (List (String × GoVal))) (fn : String)
    (cmdArgs : List Arg) (rec : List FlatField)
    (regs1 : List Registered) (rec1 : List FlatField)
    (regs2 : List Registered) (rec3 : List FlatField)
    (h1 : structVar true rec false = .ok (regs1, rec1))
    (h2 : structVar true (LoadFile jr xr fn rec1).2 true = .ok (regs2, rec3)) :
    ∃ retArgs retErr final,
      LoadFileAndParseCommandLine jr xr fn cmdArgs rec =
          .ok ⟨regs1, retArgs, retErr, final⟩ ∧
        (match flagsParse regs2 cmdArgs rec3 with
          | .error pe => retArgs = none ∧ retErr = some pe ∧ final = rec3
          | .ok (res, rec4) =>
            retArgs = some res ∧ retErr = (LoadFile jr xr fn rec1).1 ∧
              final = rec4) := by
  cases hp : flagsParse regs2 cmdArgs rec3 with
  | error pe =>
    refine ⟨none, some pe, rec3, ?_, ?_⟩
    · simp only [LoadFileAndParseCommandLine, h1, h2, hp]
    · simp [hp]
  | ok out =>
    obtain ⟨res, rec4⟩ := out
    refine ⟨some res, (LoadFile jr xr fn rec1).1, rec4, ?_, ?_⟩
    · simp only [LoadFileAndParseCommandLine, h1, h2, hp]
    · simp [hp]

/-- A plain bool field used by the C3 witness. -/
def vField : FlatField :=
  { name := "V", flagTag := "", shortTag := none, usageTag := "",
    defaultTag := none, custom := false, isPtr := false, ptrNil := false,
    kind := .kBool, value := .vBool false }

/-- A codec whose read always fails, exercising the load-error path. -/
def failCodec : String → Except String (List (String × GoVal)) :=
  fun _ => .error "read failure"

/-- The option registered for `vField` in either phase. -/
def vReg : Registered := ⟨"V", none, "", some (.vBool false), 0⟩

/-- Witness for C3: with an always-failing codec and an empty command
line, the merge still produces the phase-1 registry and returns the load
error with the residual arguments. -/
theorem claim_C3_witness :
    ∃ retArgs retErr final,
      LoadFileAndParseCommandLine failCodec failCodec "c.json" [] [vField] =
          .ok ⟨[vReg], retArgs, retErr, final⟩ ∧
        (match flagsParse [vReg] [] [vField] with
          | .error pe => retArgs = none ∧ retErr = some pe ∧ final = [vField]
          | .ok (res, rec4) =>
            retArgs = some res ∧
              retErr = (LoadFile failCodec failCodec "c.json" [vField]).1 ∧
              final = rec4) :=
  claim_C3_phase_order_and_returns failCodec failCodec "c.json" [] [vField]
    [vReg] [vField] [vReg] [vField] (by rfl) (by rfl)

/-! ## Claim C7: codec selection by file extension -/

/-- **C7** (confirmed): when the lower-cased extension of the (cleaned)
filename is neither `".json"` nor `".xml"`, `LoadFile` returns an
unsupported-extension error whose message carries the offending extension
(exhibited as a suffix of the message) and leaves the record completely
unmodified; a `".json"` or `".xml"` extension dispatches to the JSON or
XML codec respectively. -/
theorem claim_C7_load_dispatch
    (jr xr : String → Except String (List (String × GoVal)))
    (fn : String) (rec : List FlatField) :
    (asciiLower (filepathExt (pathClean fn)) ≠ ".json" →
      asciiLower (filepathExt (pathClean fn)) ≠ ".xml" →
      LoadFile jr xr fn rec =
          (some ("file extension not supported: " ++
            asciiLower (filepathExt (pathClean fn))), rec) ∧
        ∃ pre, ("file extension not supported: " ++
            asciiLower (filepathExt (pathClean fn))) =
          pre ++ asciiLower (filepathExt (pathClean fn))) ∧
    (asciiLower (filepathExt (pathClean fn)) = ".json" →
      LoadFile jr xr fn rec = applyCodec (jr (pathClean fn)) rec) ∧
    (asciiLower (filepathExt (pathClean fn)) = ".xml" →
      LoadFile jr xr fn rec = applyCodec (xr (pathClean fn)) rec) := by
  refine ⟨?_, ?_, ?_⟩
  · intro h1 h2
    refine ⟨?_, ⟨"file extension not supported: ", rfl⟩⟩
    simp only [LoadFile]
    rw [if_neg h1, if_neg h2]
  · intro h1
    simp only [LoadFile]
    rw [if_pos h1]
  · intro h2
    have h1 : asciiLower (filepathExt (pathClean fn)) ≠ ".json" := by
      rw [h2]
      decide
    simp only [LoadFile]
    rw [if_neg h1, if_pos h2]

/-- Witness for C7: `"config.yaml"` (whose lower-cased extension is
`".yaml"`) is rejected with the extension in the message; the record is
returned unmodified. -/
theorem claim_C7_witness :
    LoadFile failCodec failCodec "config.yaml" [vField] =
        (some ("file extension not supported: " ++
          asciiLower (filepathExt (pathClean "config.yaml"))), [vField]) ∧
      ∃ pre, ("file extension not supported: " ++
          asciiLower (filepathExt (pathClean "config.yaml"))) =
        pre ++ asciiLower (filepathExt (pathClean "config.yaml")) :=
  (claim_C7_load_dispatch failCodec failCodec "config.yaml" [vField]).1
    (by decide) (by decide)

/-! ## Claims C9, C10: command dispatch -/

/-- The search loop of `Execute` is a case-insensitive first-match lookup:
it runs the first entry whose lower-cased name equals the lower-cased
token on the remaining tokens, and yields `("", nil)` when none does. -/
theorem executeFind_eq (cl : String) (rest : List String) :
    ∀ (c : List CommandDetails),
    executeFind c cl rest =
      match c.find? (fun d => asciiLower d.command == cl) with
      | some d => (d.command, d.action rest)
      | none => ("", none)
  | [] => rfl
  | d :: ds => by
    simp only [executeFind, List.find?]
    cases h : asciiLower d.command == cl with
    | true => simp [h]
    | false =>
      simp only [h, if_false, Bool.false_eq_true, executeFind_eq cl rest ds]

/-- Only the empty string lower-cases to the empty string. -/
theorem asciiLower_empty_iff (s : String) : asciiLower s = "" → s = "" := by
  intro h
  have hd : (asciiLower s).data = [] := by rw [h]
  simp only [asciiLower] at hd
  have hdata : s.data = [] := by
    have := congrArg List.length hd
    simpa using List.length_eq_zero.mp (by simpa using this)
  cases s with
  | mk data =>
    simp at hdata
    simp [hdata]

/-- The lower-cased first token — `""` when no token is present — against
which `Execute` matches command names. -/
def commLowerOf : List String → String
  | [] => ""
  | a :: _ => asciiLower a

/-- **C9** (confirmed): `Execute` matches the first token against the
registered names case-insensitively (first match wins) and invokes the
matched handler on the remaining tokens; each `AddWithNArgs` wrapper
(N = 1..5) returns the not-enough-arguments error when given fewer than N
tokens; and a no-match dispatch yields `("", nil)`, which differs from the
outcome of any matched handler that returned an error of its own. -/
theorem claim_C9_dispatch_arity :
    (∀ (c : List CommandDetails) (tok : String) (rest : List String),
      executeGo c (tok :: rest) =
        match c.find? (fun d => asciiLower d.command == asciiLower tok) with
        | some d => (d.command, d.action rest)
        | none => ("", none)) ∧
    (∀ (f : String → Option String) (args : List String), args.length < 1 →
      arg1Action f args = some errNotEnoughArguments) ∧
    (∀ (f : String → String → Option String) (args : List String),
      args.length < 2 → arg2Action f args = some errNotEnoughArguments) ∧
    (∀ (f : String → String → String → Option String) (args : List String),
      args.length < 3 → arg3Action f args = some errNotEnoughArguments) ∧
    (∀ (f : String → String → String → String → Option String)
      (args : List String), args.length < 4 →
      arg4Action f args = some errNotEnoughArguments) ∧
    (∀ (f : String → String → String → String → String → Option String)
      (args : List String), args.length < 5 →
      arg5Action f args = some errNotEnoughArguments) ∧
    (∀ (c : List CommandDetails) (tok : String) (rest : List String)
      (d : CommandDetails) (e : String),
      c.find? (fun d => asciiLower d.command == asciiLower tok) = some d →
      d.action rest = some e →
      executeGo c (tok :: rest) ≠ ("", none)) := by
  refine ⟨?_, ?_, ?_, ?_, ?_, ?_, ?_⟩
  · intro c tok rest
    exact executeFind_eq (asciiLower tok) rest c
  · intro f args h
    rcases args with _ | ⟨a, t⟩
    · rfl
    · simp only [List.length_cons] at h
      omega
  · intro f args h
    rcases args with _ | ⟨a, _ | ⟨b, t⟩⟩
    · rfl
    · rfl
    · simp only [List.length_cons] at h
      omega
  · intro f args h
    rcases args with _ | ⟨a, _ | ⟨b, _ | ⟨c, t⟩⟩⟩
    · rfl
    · rfl
    · rfl
    · simp only [List.length_cons] at h
      omega
  · intro f args h
    rcases args with _ | ⟨a, _ | ⟨b, _ | ⟨c, _ | ⟨d, t⟩⟩⟩⟩
    · rfl
    · rfl
    · rfl
    · rfl
    · simp only [List.length_cons] at h
      omega
  · intro f args h
    rcases args with _ | ⟨a, _ | ⟨b, _ | ⟨c, _ | ⟨d, _ | ⟨e, t⟩⟩⟩⟩⟩
    · rfl
    · rfl
    · rfl
    · rfl
    · rfl
    · simp only [List.length_cons] at h
      omega
  · intro c tok rest d e hf ha
    show executeFind c (asciiLower tok) rest ≠ ("", none)
    rw [executeFind_eq (asciiLower tok) rest c, hf]
    show (d.command, d.action rest) ≠ ("", none)
    intro heq
    have h2 := congrArg Prod.snd heq
    simp only at h2
    rw [ha] at h2
    cases h2

/-- **C10** (confirmed): in the `Execute` variant supporting a default
(empty-name) command, a first token matching no registered entry yields
exactly `("", nil)`; and when the default command is selected (empty or
absent first token) and its handler returns `nil`, `Execute` returns the
very same pair `("", nil)` — so the two outcomes are indistinguishable
from the return values alone. -/
theorem claim_C10_default_indistinguishable :
    (∀ (c : List CommandDetails) (args : List String),
      c.find? (fun d => asciiLower d.command == commLowerOf args) = none →
      executeGo c args = ("", none)) ∧
    (∀ (c : List CommandDetails) (d : CommandDetails) (rest : List String),
      c.find? (fun d => asciiLower d.command == "") = some d →
      (d.action rest = none → executeGo c ("" :: rest) = ("", none)) ∧
      (d.action [] = none → executeGo c [] = ("", none))) := by
  constructor
  · intro c args hf
    rcases args with _ | ⟨a, rest⟩
    · show executeFind c "" [] = ("", none)
      rw [executeFind_eq "" [] c]
      simp only [commLowerOf] at hf
      rw [hf]
    · show executeFind c (asciiLower a) rest = ("", none)
      rw [executeFind_eq (asciiLower a) rest c]
      simp only [commLowerOf] at hf
      rw [hf]
  · intro c d rest hf
    have hcmd : d.command = "" := by
      have hp := List.find?_some hf
      have hlow : asciiLower d.command = "" := by
        simpa using hp
      exact asciiLower_empty_iff _ hlow
    constructor
    · intro ha
      show executeFind c (asciiLower "") rest = ("", none)
      have hle : asciiLower "" = "" := by rfl
      rw [hle, executeFind_eq "" rest c, hf]
      show (d.command, d.action rest) = ("", none)
      rw [hcmd, ha]
    · intro ha
      show executeFind c "" [] = ("", none)
      rw [executeFind_eq "" [] c, hf]
      show (d.command, d.action []) = ("", none)
      rw [hcmd, ha]

/-- The spec's scenario table: `start` takes no extra argument, `scale`
takes one. -/
def startCmd : CommandDetails := ⟨"start", "", [], fun _ => none⟩

/-- The one-argument `scale` command, registered through the
`AddWithArg` wrapper. -/
def scaleCmd : CommandDetails := ⟨"scale", "<n>", [], arg1Action (fun _ => none)⟩

/-- The scenario command table. -/
def demoCommands : List CommandDetails := [startCmd, scaleCmd]

/-- Witness for C9, on the spec's scenario: dispatching `["scale"]` (no
extra token) yields the not-enough-arguments error, dispatching `["stop"]`
yields the not-found outcome, and the former differs from the latter. -/
theorem claim_C9_witness :
    executeGo demoCommands ["scale"] = ("scale", some errNotEnoughArguments) ∧
      executeGo demoCommands ["stop"] = ("", none) ∧
      arg1Action (fun _ => none) [] = some errNotEnoughArguments ∧
      executeGo demoCommands ["scale"] ≠ ("", none) := by
  have h := claim_C9_dispatch_arity
  refine ⟨?_, ?_, ?_, ?_⟩
  · exact (h.1 demoCommands "scale" []).trans rfl
  · exact (h.1 demoCommands "stop" []).trans rfl
  · exact h.2.1 (fun _ => none) [] (by decide)
  · exact h.2.2.2.2.2.2 demoCommands "scale" [] scaleCmd
      errNotEnoughArguments (by rfl) (by rfl)

/-- The default (empty-name) command registered by `AddDefault`. -/
def defaultCmd : CommandDetails := ⟨"", "", [], fun _ => none⟩

/-- A table holding only the default command. -/
def defaultOnly : List CommandDetails := [defaultCmd]

/-- Witness for C10: a successful default-command run (no arguments) and a
no-match dispatch (`["zzz"]`) both return `("", nil)` — the same pair. -/
theorem claim_C10_witness :
    executeGo defaultOnly [] = ("", none) ∧
      executeGo defaultOnly ["zzz"] = ("", none) ∧
      executeGo defaultOnly [] = executeGo defaultOnly ["zzz"] := by
  have h := claim_C10_default_indistinguishable
  have h1 : executeGo defaultOnly [] = ("", none) :=
    (h.2 defaultOnly defaultCmd [] (by rfl)).2 (by rfl)
  have h2 : executeGo defaultOnly ["zzz"] = ("", none) :=
    h.1 defaultOnly ["zzz"] (by rfl)
  exact ⟨h1, h2, h1.trans h2.symm⟩

end Structflag
